import Mathlib

/-!
Shallow embedding of `scripts/06_collector.py` (grin-stats-collector) and
verification of the specification claims about it.

Machine integers of the script (heights, timestamps, difficulties, counts)
are modelled as `ℤ`/`ℕ`; Python float arithmetic (the derived hashrate and
rounding in the JSON export) is modelled over `ℚ`.  SQL tables are modelled
as lists of row structures and the SQL statements of the script as list
operations.
-/

namespace GrinCollector

/-! ## Configuration constants (module-level constants of the script) -/

def BLOCKS_PER_HOUR : ℤ := 60
def BLOCKS_PER_DAY : ℤ := 1440
def RECENT_HOURS : ℤ := 24
def HOURLY_DAYS : ℤ := 30
def PEER_RETENTION_DAYS : ℤ := 30
def PEER_HISTORY_DAYS : ℤ := 7

/-! ## Data model: rows of the sqlite tables -/

/-- A `(height, timestamp, total_difficulty)` triple as returned by
`fetch_header`. -/
structure HRow where
  height : ℤ
  ts : ℤ
  diff : ℤ
deriving DecidableEq, Repr

/-- A `(height, ts, total_diff, hashrate)` tuple as produced by
`calc_hashrate`. -/
structure HrRow where
  height : ℤ
  ts : ℤ
  diff : ℤ
  hr : ℚ
deriving DecidableEq, Repr

/-- A row of the `blocks` table. -/
structure BlockRow where
  height : ℤ
  timestamp : ℤ
  total_diff : ℤ
  hashrate : ℚ
  bucket : String
deriving DecidableEq, Repr

/-- A row of the `block_stats` table. -/
structure StatRow where
  height : ℤ
  timestamp : ℤ
  tx_count : ℤ
  fee_total : ℤ
  output_count : ℤ
deriving DecidableEq, Repr

/-- A row of the `peer_snapshots` table. -/
structure SnapRow where
  sampled_at : ℤ
  user_agent : String
  count : ℤ
deriving DecidableEq, Repr

/-- A row of the `known_peers` table. -/
structure PeerRow where
  ip : String
  network : String
  port : String
  user_agent : String
  direction : String
  lat : ℚ
  lng : ℚ
  country : String
  country_code : String
  city : String
  first_seen : ℤ
  last_seen : ℤ
deriving DecidableEq, Repr

/-- The sqlite database state: the four tables plus the `last_height`
meta entry. -/
structure Store where
  blocks : List BlockRow
  block_stats : List StatRow
  peer_snapshots : List SnapRow
  known_peers : List PeerRow
  lastHeight : ℤ
deriving DecidableEq, Repr

/-! ## Hashrate calculation (`calc_hashrate`) -/

/-- Inner loop of `calc_hashrate` for the points after the first: `prev`
is the previous input triple (`rows[i-1]`) and `prevHr` the previously
computed hashrate (`out[-1][3]`). -/
def calcGo (prev : HRow) (prevHr : ℚ) : List HRow → List HrRow
  | [] => []
  | r :: rest =>
      let dt := r.ts - prev.ts
      let dd := r.diff - prev.diff
      let hr := if 0 < dt ∧ 0 < dd then ((dd : ℚ) / (dt : ℚ)) else prevHr
      ⟨r.height, r.ts, r.diff, hr⟩ :: calcGo r hr rest

/-- `calc_hashrate`: given `(height, ts, total_diff)` triples sorted by
height, compute the per-point hashrate.  The first point gets `0.0`;
later points get `dd / dt` when both deltas are strictly positive and
otherwise carry the previously computed value forward. -/
def calc_hashrate : List HRow → List HrRow
  | [] => []
  | r :: rest => ⟨r.height, r.ts, r.diff, 0⟩ :: calcGo r 0 rest

/-- `_append_hashrate`: compute hashrate for new rows, using the stored
row at `last_height` (if any) as a dropped seed. -/
def append_hashrate (newRows : List HRow) (stored : Option HRow) : List HrRow :=
  match newRows with
  | [] => []
  | _ =>
      let base : List HRow := match stored with | some r => [r] | none => []
      (calc_hashrate (base ++ newRows)).drop base.length

/-- Final `(row, hashrate)` state after running the `calc_hashrate` loop
over a list, starting from `prev`/`q`. -/
def goState (prev : HRow) (q : ℚ) : List HRow → HRow × ℚ
  | [] => (prev, q)
  | r :: rest =>
      let dt := r.ts - prev.ts
      let dd := r.diff - prev.diff
      let hr := if 0 < dt ∧ 0 < dd then ((dd : ℚ) / (dt : ℚ)) else q
      goState r hr rest

/-- Projection of a computed row back to its input triple. -/
def projHr (x : HrRow) : HRow := ⟨x.height, x.ts, x.diff⟩

/-- The consecutive-point relation that `calc_hashrate` establishes:
each output value is the delta quotient when both deltas are strictly
positive and otherwise the immediately preceding computed value. -/
def hrStep (a b : HrRow) : Prop :=
  b.hr = if 0 < b.ts - a.ts ∧ 0 < b.diff - a.diff
         then (((b.diff - a.diff : ℤ) : ℚ) / ((b.ts - a.ts : ℤ) : ℚ))
         else a.hr

/-! ## Bucket assignment (`assign_bucket`) -/

/-- `assign_bucket`, with the ambient `now_ts()` made an explicit
argument. -/
def assign_bucket (now ts : ℤ) : String :=
  if now - ts < RECENT_HOURS * 3600 then "recent"
  else if now - ts < HOURLY_DAYS * 86400 then "hourly"
  else "daily"

/-! ## Generic list helpers (modelling `sort`, `ORDER BY`, `range`) -/

/-- Insert into a list sorted by the boolean relation `le`. -/
def insertSorted (le : α → α → Bool) (a : α) : List α → List α
  | [] => [a]
  | b :: bs => if le a b then a :: b :: bs else b :: insertSorted le a bs

/-- Insertion sort by the boolean relation `le`; models Python `sort`
and SQL `ORDER BY` (tie order is unspecified in both). -/
def sortByRel (le : α → α → Bool) : List α → List α
  | [] => []
  | a :: as => insertSorted le a (sortByRel le as)

/-- `range(lo, hi + 1)` over integers. -/
def intRange (lo hi : ℤ) : List ℤ :=
  (List.range (hi + 1 - lo).toNat).map (fun i => lo + (i : ℤ))

/-- `MAX(column)` of SQL: `none` on an empty table. -/
def sqlMax (l : List ℤ) : Option ℤ :=
  l.foldl (fun acc x => match acc with
    | none => some x
    | some m => some (max m x)) none

/-! ## Incremental update (`cmd_update`, block-ingestion phase)

`cmd_update` also calls `_update_peers` and `export_all_json`, which
never touch the `blocks`/`block_stats` tables or `last_height`; those
two phases are modelled separately (`update_peers_db`,
`export_all_json`).  The block-ingestion phase below covers everything
`cmd_update` does to the block data.  Header and full-block fetches are
modelled by oracles `hfetch`/`sfetch` (`None` = the per-height fetch
failed and is skipped); the returned `ℕ` counts the per-height fetch
calls issued. -/

/-- `INSERT OR REPLACE` into the `blocks` table (primary key `height`). -/
def insertOrReplaceBlock (blocks : List BlockRow) (r : BlockRow) : List BlockRow :=
  if blocks.any (fun b => b.height = r.height) then
    blocks.map (fun b => if b.height = r.height then r else b)
  else blocks ++ [r]

/-- `INSERT OR REPLACE` into the `block_stats` table (primary key
`height`). -/
def insertOrReplaceStat (stats : List StatRow) (r : StatRow) : List StatRow :=
  if stats.any (fun b => b.height = r.height) then
    stats.map (fun b => if b.height = r.height then r else b)
  else stats ++ [r]

/-- Block-ingestion phase of `cmd_update`: read `last_height`, compare
with the tip, and when the tip is ahead fetch `(last_height, tip]`,
extend the hashrate series via `_append_hashrate`, write and re-bucket
rows, fetch full-block stats for the same range, and advance
`last_height`. -/
def cmd_update_blocks (s : Store) (tip : ℤ) (hfetch : ℤ → Option HRow)
    (sfetch : ℤ → Option StatRow) (now : ℤ) : Store × ℕ :=
  if tip ≤ s.lastHeight then (s, 0)
  else
    let newHeights := intRange (s.lastHeight + 1) tip
    let rows := sortByRel (fun a b => decide (a.height ≤ b.height))
      (newHeights.filterMap hfetch)
    let stored := (s.blocks.find? (fun b => decide (b.height = s.lastHeight))).map
      (fun b => (⟨b.height, b.timestamp, b.total_diff⟩ : HRow))
    let rowsHr := append_hashrate rows stored
    let blocks1 := rowsHr.foldl
      (fun bs r => insertOrReplaceBlock bs
        ⟨r.height, r.ts, r.diff, r.hr, assign_bucket now r.ts⟩) s.blocks
    let blocks2 := blocks1.map (fun b =>
      if b.bucket = "recent" ∧ b.timestamp < now - RECENT_HOURS * 3600
      then { b with bucket := "hourly" } else b)
    let blocks3 := blocks2.map (fun b =>
      if b.bucket = "hourly" ∧ b.timestamp < now - HOURLY_DAYS * 86400
      then { b with bucket := "daily" } else b)
    let statHeights := intRange (max 0 (s.lastHeight + 1)) tip
    let stats := statHeights.filterMap sfetch
    let bstats := stats.foldl insertOrReplaceStat s.block_stats
    ({ s with blocks := blocks3, block_stats := bstats, lastHeight := tip },
     newHeights.length + statHeights.length)

/-! ## JSON export (`export_all_json`)

Each artifact is modelled as a typed value; equality of these values
stands for byte-identity of the emitted files (the serializer
`json.dump(..., separators=(",", ":"))` is deterministic). -/

/-- Python banker's rounding to an integer (`round` half-to-even). -/
def roundHalfEven (x : ℚ) : ℤ :=
  let f := ⌊x⌋
  let r := x - (f : ℚ)
  if r < 1/2 then f
  else if 1/2 < r then f + 1
  else if f % 2 = 0 then f else f + 1

/-- Python `round(x, 2)`. -/
def round2 (x : ℚ) : ℚ := (roundHalfEven (x * 100) : ℚ) / 100

/-- Content of `hashrate.json` / `difficulty.json`. -/
structure SeriesJson where
  updated : ℤ
  current : ℚ
  daily : List (ℤ × ℚ)
  hourly : List (ℤ × ℚ)
  recent : List (ℤ × ℚ)
deriving DecidableEq, Repr

/-- Content of `transactions.json` / `fees.json`. -/
structure AggJson where
  updated : ℤ
  daily : List (ℤ × ℤ)
  hourly : List (ℤ × ℤ)
  recent : List (ℤ × ℤ)
deriving DecidableEq, Repr

/-- Content of `versions.json`. -/
structure VersionsJson where
  updated : ℤ
  sampled_from : ℤ
  versions : List (String × ℤ)
deriving DecidableEq, Repr

/-- Content of `summary.json`. -/
structure SummaryJson where
  updated : ℤ
  tip_height : ℤ
  avg_block_time : ℤ
  current_hashrate : ℚ
  current_difficulty : ℤ
deriving DecidableEq, Repr

/-- The artifacts one `export_all_json` run produces; `versions = none`
means `versions.json` was not written on this run. -/
structure ExportOut where
  hashrate : SeriesJson
  difficulty : SeriesJson
  transactions : AggJson
  fees : AggJson
  versions : Option VersionsJson
  summary : SummaryJson
deriving DecidableEq, Repr

/-- `SELECT ... FROM blocks ORDER BY height DESC LIMIT 1`. -/
def lastByHeight (l : List BlockRow) : Option BlockRow :=
  (sortByRel (fun a b => decide (b.height ≤ a.height)) l).head?

/-- The `hashrate.json` / `difficulty.json` builder: per-bucket
`(timestamp, value)` series ordered by timestamp plus the value at the
most recent block. -/
def seriesFor (s : Store) (tsNow : ℤ) (col : BlockRow → ℚ) : SeriesJson :=
  let q := fun (b : String) =>
    (sortByRel (fun a b => decide (a.timestamp ≤ b.timestamp))
      (s.blocks.filter (fun r => decide (r.bucket = b)))).map
      (fun r => (r.timestamp, round2 (col r)))
  let current : ℚ := match lastByHeight s.blocks with
    | some r => col r
    | none => 0
  { updated := tsNow, current := round2 current,
    daily := q "daily", hourly := q "hourly", recent := q "recent" }

/-- `GROUP BY bucket_ts ... SUM(col) ... ORDER BY bucket_ts` over
`block_stats` rows. -/
def groupSum (rows : List StatRow) (bucketOf : ℤ → ℤ) (col : StatRow → ℤ) :
    List (ℤ × ℤ) :=
  let keys := sortByRel (fun a b => decide (a ≤ b))
    ((rows.map (fun r => bucketOf r.timestamp)).dedup)
  keys.map (fun k =>
    (k, (rows.filter (fun r => decide (bucketOf r.timestamp = k))).foldl
      (fun acc r => acc + col r) 0))

/-- The `transactions.json` / `fees.json` builder: raw points for the
last 24 h, hourly bucket sums for 24 h–30 d, daily bucket sums older
than 30 d.  SQLite integer division truncates toward zero
(`Int.tdiv`). -/
def aggFor (s : Store) (tsNow : ℤ) (col : StatRow → ℤ) : AggJson :=
  let cutoff24 := tsNow - 86400
  let cutoff30 := tsNow - 30 * 86400
  let recent :=
    (sortByRel (fun a b => decide (a.timestamp ≤ b.timestamp))
      (s.block_stats.filter (fun r => decide (cutoff24 ≤ r.timestamp)))).map
      (fun r => (r.timestamp, col r))
  let hourly := groupSum
    (s.block_stats.filter
      (fun r => decide (cutoff30 ≤ r.timestamp ∧ r.timestamp < cutoff24)))
    (fun t => t.tdiv 3600 * 3600) col
  let daily := groupSum
    (s.block_stats.filter (fun r => decide (r.timestamp < cutoff30)))
    (fun t => t.tdiv 86400 * 86400) col
  { updated := tsNow, daily := daily, hourly := hourly, recent := recent }

/-- The `versions.json` builder: `none` when `MAX(sampled_at)` is
`NULL` (empty table) or `0` (Python falsiness of
`if latest_snap_ts:`). -/
def versionsFor (s : Store) (tsNow : ℤ) : Option VersionsJson :=
  match sqlMax (s.peer_snapshots.map (fun r => r.sampled_at)) with
  | none => none
  | some t0 =>
      if t0 = 0 then none
      else
        let rows := sortByRel (fun a b => decide (b.count ≤ a.count))
          (s.peer_snapshots.filter (fun r => decide (r.sampled_at = t0)))
        let total : ℤ := rows.foldl (fun acc r => acc + r.count) 0
        let top := rows.take 5
        let other : ℤ := (rows.drop 5).foldl (fun acc r => acc + r.count) 0
        let versions := top.map (fun r => (r.user_agent, r.count)) ++
          (if 0 < other then [("Other", other)] else [])
        some { updated := tsNow, sampled_from := total, versions := versions }

/-- The `summary.json` builder. -/
def summaryFor (s : Store) (tsNow : ℤ) : SummaryJson :=
  let top2 := (sortByRel (fun a b => decide (b.height ≤ a.height)) s.blocks).take 2
  let tipHeight : ℤ := match top2.head? with
    | some r => r.height
    | none => 0
  let avg : ℤ := match top2 with
    | [a, b] => a.timestamp - b.timestamp
    | _ => 0
  { updated := tsNow, tip_height := tipHeight, avg_block_time := avg,
    current_hashrate := match lastByHeight s.blocks with
      | some r => round2 r.hashrate
      | none => 0,
    current_difficulty := match lastByHeight s.blocks with
      | some r => r.total_diff
      | none => 0 }

/-- `export_all_json`: the artifacts of one export run at clock reading
`tsNow`. -/
def export_all_json (s : Store) (tsNow : ℤ) : ExportOut :=
  { hashrate := seriesFor s tsNow (fun r => r.hashrate),
    difficulty := seriesFor s tsNow (fun r => (r.total_diff : ℚ)),
    transactions := aggFor s tsNow (fun r => r.tx_count),
    fees := aggFor s tsNow (fun r => r.fee_total),
    versions := versionsFor s tsNow,
    summary := summaryFor s tsNow }

/-- The file names an export run writes, in write order. -/
def exportFiles (s : Store) (tsNow : ℤ) : List String :=
  ["hashrate.json", "difficulty.json", "transactions.json", "fees.json"] ++
    (match (export_all_json s tsNow).versions with
      | some _ => ["versions.json"]
      | none => []) ++ ["summary.json"]

/-- One export run as a state transformer: `export_all_json` only issues
`SELECT` statements, so the store is returned unchanged. -/
def exportRun (s : Store) (tsNow : ℤ) : ExportOut × Store :=
  (export_all_json s tsNow, s)

/-! ## Peer discovery (`_fetch_all_peers_from_node`) -/

/-- A raw peer record as decoded from the node's JSON response. -/
structure RawPeer where
  flags : String
  addr : String
  user_agent : String
  direction : String
deriving DecidableEq, Repr

/-- A peer record emitted by peer discovery. -/
structure OutPeer where
  ip : String
  port : String
  user_agent : String
  direction : String
  network : String
deriving DecidableEq, Repr

/-- Python `pat in s` (substring containment). -/
def containsSub (pat s : String) : Bool :=
  s.data.tails.any (fun t => pat.data.isPrefixOf t)

/-- Python `s.startswith(pre)`. -/
def strStartsWith (s pre : String) : Bool :=
  pre.data.isPrefixOf s.data

/-- Split a character list at its last `':'`, returning the parts before
and after it; `none` when there is no colon.  Models
`addr.rsplit(":", 1)`. -/
def lastColonSplit : List Char → Option (List Char × List Char)
  | [] => none
  | c :: cs =>
      match lastColonSplit cs with
      | some (b, a) => some (c :: b, a)
      | none => if c = ':' then some ([], cs) else none

/-- Python `str.strip("[]")`. -/
def stripBrackets (l : List Char) : List Char :=
  ((l.dropWhile (fun c => c = '[' ∨ c = ']')).reverse.dropWhile
    (fun c => c = '[' ∨ c = ']')).reverse

/-- `addr.rsplit(":", 1)[0].strip("[]")`. -/
def extractIp (addr : String) : String :=
  match lastColonSplit addr.data with
  | some (b, _) => ⟨stripBrackets b⟩
  | none => ⟨stripBrackets addr.data⟩

/-- `addr.rsplit(":", 1)[-1] if ":" in addr else "3414"`. -/
def extractPort (addr : String) : String :=
  match lastColonSplit addr.data with
  | some (_, a) => ⟨a⟩
  | none => "3414"

/-- Per-peer filter of the owner-API (`get_peers`) path: drop peers whose
flags contain `"Banned"` and addresses with an empty ip or an ip
starting with `"127."`, `"::1"`, `"10."` or `"192.168."`. -/
def ownerEntry (net : String) (p : RawPeer) : Option OutPeer :=
  if containsSub "Banned" p.flags = true then none
  else
    let ip := extractIp p.addr
    if ip ≠ "" ∧ strStartsWith ip "127." = false ∧ strStartsWith ip "::1" = false ∧
        strStartsWith ip "10." = false ∧ strStartsWith ip "192.168." = false then
      some { ip := ip, port := extractPort p.addr, user_agent := p.user_agent,
             direction := p.direction, network := net }
    else none

/-- Per-peer filter of the fallback (`get_connected_peers`) path: only
the empty-ip, `"127."` and `"::1"` checks are applied. -/
def connectedEntry (net : String) (p : RawPeer) : Option OutPeer :=
  let ip := extractIp p.addr
  if ip ≠ "" ∧ strStartsWith ip "127." = false ∧ strStartsWith ip "::1" = false then
    some { ip := ip, port := extractPort p.addr, user_agent := p.user_agent,
           direction := p.direction, network := net }
  else none

/-- The peer list built by `_fetch_all_peers_from_node` on the primary
(owner API, all known peers) path. -/
def fetchPeersOwnerPath (raw : List RawPeer) (net : String) : List OutPeer :=
  raw.filterMap (ownerEntry net)

/-- The peer list built by `_fetch_all_peers_from_node` on the fallback
(foreign API, connected peers) path. -/
def fetchPeersFallback (raw : List RawPeer) (net : String) : List OutPeer :=
  raw.filterMap (connectedEntry net)

/-- Loopback, link-local or RFC 1918 private address, following the
wording of the specification (used to compare the implemented filter
with the specified one). -/
def specPrivateOrLocal (ip : String) : Bool :=
  strStartsWith ip "127." || strStartsWith ip "::1" ||
  strStartsWith ip "169.254." || strStartsWith ip "fe80:" ||
  strStartsWith ip "10." || strStartsWith ip "192.168." ||
  (List.range 16).any (fun k =>
    strStartsWith ip ("172." ++ toString (16 + k) ++ "."))

/-! ## Peer reconciliation (`_update_peers`, known_peers phase) -/

/-- A deduplicated, geolocation-enriched peer about to be upserted. -/
structure EnrichedPeer where
  ip : String
  network : String
  port : String
  user_agent : String
  direction : String
  lat : ℚ
  lng : ℚ
  country : String
  country_code : String
  city : String
deriving DecidableEq, Repr

/-- The `INSERT ... ON CONFLICT(ip, network) DO UPDATE` of
`_update_peers` for a single enriched peer: on conflict, every mutable
field and `last_seen` are overwritten while `first_seen` is kept; a new
key is inserted with `first_seen = last_seen = ts`. -/
def upsertOne (tbl : List PeerRow) (e : EnrichedPeer) (ts : ℤ) : List PeerRow :=
  if tbl.any (fun r => r.ip = e.ip ∧ r.network = e.network) then
    tbl.map (fun r =>
      if r.ip = e.ip ∧ r.network = e.network then
        { r with port := e.port, user_agent := e.user_agent,
                 direction := e.direction, lat := e.lat, lng := e.lng,
                 country := e.country, country_code := e.country_code,
                 city := e.city, last_seen := ts }
      else r)
  else
    tbl ++ [{ ip := e.ip, network := e.network, port := e.port,
              user_agent := e.user_agent, direction := e.direction,
              lat := e.lat, lng := e.lng, country := e.country,
              country_code := e.country_code, city := e.city,
              first_seen := ts, last_seen := ts }]

/-- The known_peers phase of `_update_peers`: upsert every enriched peer
at time `ts`, prune rows with `last_seen` older than the retention
horizon, and return the pruned table together with the rows selected
for `peers.json` (`last_seen` within the shorter display horizon,
ordered by `last_seen` descending). -/
def update_peers_db (tbl : List PeerRow) (enriched : List EnrichedPeer)
    (ts : ℤ) : List PeerRow × List PeerRow :=
  let upserted := enriched.foldl (fun t e => upsertOne t e ts) tbl
  let cutoff := ts - PEER_RETENTION_DAYS * 86400
  let pruned := upserted.filter (fun r => decide (¬ r.last_seen < cutoff))
  let historyCutoff := ts - PEER_HISTORY_DAYS * 86400
  let exported := sortByRel (fun a b => decide (b.last_seen ≤ a.last_seen))
    (pruned.filter (fun r => decide (historyCutoff ≤ r.last_seen)))
  (pruned, exported)

/-! ## JSON-RPC helper (`_rpc`) -/

/-- The decoded `result` member of a JSON-RPC response: either a
well-formed `Err`-tagged payload or a usable value. -/
inductive RpcResp where
  | errTagged (e : String)
  | okVal (v : String)
deriving DecidableEq, Repr

/-- What one `urlopen` attempt yields: a transport failure
(`URLError`/`OSError`) or a decoded response. -/
inductive Attempt where
  | transportFail
  | response (r : RpcResp)
deriving DecidableEq, Repr

/-- The observable outcome of `_rpc`. -/
inductive RpcResult where
  | domainErr (e : String)
  | success (v : String)
  | transportErr
  | fellThrough
deriving DecidableEq, Repr

/-- The retry loop of `_rpc`: `attempt` is the current loop index and
`fuel` the number of remaining iterations of `range(retries)`.  Returns
the outcome, the number of network calls issued, and the list of
backoff sleeps (`time.sleep(1 + attempt)`) performed.  A transport
failure on the last attempt is re-raised; an `Err`-tagged payload is
raised immediately (a `RuntimeError` is not caught by the
`except (URLError, OSError)` clause). -/
def rpcLoop (oracle : ℕ → Attempt) (attempt : ℕ) :
    ℕ → RpcResult × ℕ × List ℕ
  | 0 => (RpcResult.fellThrough, 0, [])
  | fuel + 1 =>
      match oracle attempt with
      | Attempt.response (RpcResp.errTagged e) => (RpcResult.domainErr e, 1, [])
      | Attempt.response (RpcResp.okVal v) => (RpcResult.success v, 1, [])
      | Attempt.transportFail =>
          if fuel = 0 then (RpcResult.transportErr, 1, [])
          else
            let rest := rpcLoop oracle (attempt + 1) fuel
            (rest.1, rest.2.1 + 1, (1 + attempt) :: rest.2.2)

/-- `_rpc` with its default `retries=3`, the network modelled by an
oracle giving the outcome of each attempt. -/
def rpc (oracle : ℕ → Attempt) (retries : ℕ := 3) : RpcResult × ℕ × List ℕ :=
  rpcLoop oracle 0 retries

/-! ## Timestamp parsing (`parse_ts`) -/

/-- `ts_str.split(".")[0]`: the characters before the first dot. -/
def beforeDot (l : List Char) : List Char := l.takeWhile (fun c => c ≠ '.')

/-- A decimal digit, as a value. -/
def digitVal (c : Char) : Option ℕ :=
  if c.isDigit then some (c.toNat - 48) else none

/-- Consume one or two leading digits (two when present), as `strptime`
field patterns such as `(1[0-2]|0[1-9]|[1-9])` do.  Because every field
is followed by a non-digit separator or the end of the string, taking
both digits when two are present matches the regex backtracking
semantics. -/
def takeDigits2 : List Char → Option (ℕ × List Char)
  | [] => none
  | c1 :: rest1 =>
      match digitVal c1 with
      | none => none
      | some d1 =>
          match rest1 with
          | c2 :: rest2 =>
              match digitVal c2 with
              | some d2 => some (d1 * 10 + d2, rest2)
              | none => some (d1, rest1)
          | [] => some (d1, [])

/-- Consume exactly four digits (the `%Y` pattern). -/
def takeDigits4 : List Char → Option (ℕ × List Char)
  | c1 :: c2 :: c3 :: c4 :: rest =>
      match digitVal c1, digitVal c2, digitVal c3, digitVal c4 with
      | some a, some b, some c, some d =>
          some (((a * 10 + b) * 10 + c) * 10 + d, rest)
      | _, _, _, _ => none
  | _ => none

/-- Consume one expected literal character. -/
def expectChar (c : Char) : List Char → Option (List Char)
  | [] => none
  | x :: xs => if x = c then some xs else none

/-- Leap year rule of the Gregorian calendar (as `datetime` uses). -/
def isLeap (y : ℕ) : Bool := y % 4 = 0 && (y % 100 ≠ 0 || y % 400 = 0)

/-- Days in a month, as validated by the `datetime` constructor. -/
def daysInMonth (y m : ℕ) : ℕ :=
  if m = 2 then (if isLeap y then 29 else 28)
  else if m = 4 ∨ m = 6 ∨ m = 9 ∨ m = 11 then 30
  else 31

/-- `datetime.strptime(core, "%Y-%m-%dT%H:%M:%S")`: parse and validate,
`none` when either the regex match or the `datetime` construction
fails. -/
def strptimeIso (l : List Char) : Option (ℕ × ℕ × ℕ × ℕ × ℕ × ℕ) := do
  let (y, r1) ← takeDigits4 l
  let r2 ← expectChar '-' r1
  let (m, r3) ← takeDigits2 r2
  let r4 ← expectChar '-' r3
  let (d, r5) ← takeDigits2 r4
  let r6 ← expectChar 'T' r5
  let (hh, r7) ← takeDigits2 r6
  let r8 ← expectChar ':' r7
  let (mi, r9) ← takeDigits2 r8
  let r10 ← expectChar ':' r9
  let (ss, r11) ← takeDigits2 r10
  if r11 = [] ∧ 1 ≤ y ∧ 1 ≤ m ∧ m ≤ 12 ∧ 1 ≤ d ∧ d ≤ daysInMonth y m ∧
      hh ≤ 23 ∧ mi ≤ 59 ∧ ss ≤ 59 then
    some (y, m, d, hh, mi, ss)
  else none

/-- Days between 1970-01-01 and the given civil date (Gregorian),
matching `datetime.replace(tzinfo=utc).timestamp() // 86400`. -/
def daysFromCivil (y m d : ℤ) : ℤ :=
  let y1 := if m ≤ 2 then y - 1 else y
  let era := y1.tdiv 400
  let yoe := y1 - era * 400
  let mp := (m + 9) % 12
  let doy := (153 * mp + 2).tdiv 5 + d - 1
  let doe := yoe * 365 + yoe.tdiv 4 - yoe.tdiv 100 + doy
  era * 146097 + doe - 719468

/-- `parse_ts`: convert a Grin ISO timestamp string to Unix seconds,
falling back to the current wall-clock time (`now`) on any parse
failure. -/
def parse_ts (s : String) (now : ℤ) : ℤ :=
  match strptimeIso (beforeDot s.data) with
  | some (y, m, d, hh, mi, ss) =>
      daysFromCivil (y : ℤ) (m : ℤ) (d : ℤ) * 86400 +
        (hh : ℤ) * 3600 + (mi : ℤ) * 60 + (ss : ℤ)
  | none => now

/-! ## Concrete fixtures used as test inputs -/

/-- A store with all tables empty. -/
def emptyStore : Store :=
  { blocks := [], block_stats := [], peer_snapshots := [], known_peers := [],
    lastHeight := 0 }

/-- A store holding one `recent` block row whose timestamp is far more
than 24 h old relative to clock reading `100000`. -/
def storeC3 : Store :=
  { blocks := [⟨5, 0, 100, 0, "recent"⟩], block_stats := [],
    peer_snapshots := [], known_peers := [], lastHeight := 5 }

/-- A healthy (non-banned) peer whose address lies in the RFC 1918
`172.16.0.0/12` private range. -/
def badRawPeer : RawPeer :=
  { flags := "Healthy", addr := "172.16.0.1:3414", user_agent := "MW/Grin",
    direction := "Outbound" }

/-- A healthy peer with an ordinary public address. -/
def goodRawPeer : RawPeer :=
  { flags := "Healthy", addr := "1.2.3.4:3414", user_agent := "MW/Grin",
    direction := "Outbound" }

/-- A stored known-peer row first seen at time 10. -/
def wPeerRow : PeerRow :=
  { ip := "1.2.3.4", network := "mainnet", port := "3414",
    user_agent := "MW/Grin 5.1", direction := "Outbound", lat := 0, lng := 0,
    country := "", country_code := "", city := "", first_seen := 10,
    last_seen := 10 }

/-- A re-sighting of the same peer with changed mutable fields. -/
def wEnriched : EnrichedPeer :=
  { ip := "1.2.3.4", network := "mainnet", port := "3415",
    user_agent := "MW/Grin 5.2", direction := "Inbound", lat := 1, lng := 2,
    country := "Iceland", country_code := "IS", city := "Reykjavik" }

/-! ## Lemmas about `calc_hashrate` -/

theorem calcGo_proj (l : List HRow) : ∀ (prev : HRow) (q : ℚ),
    (calcGo prev q l).map projHr = l := by
  induction l with
  | nil => intro prev q; rfl
  | cons r rest ih => intro prev q; simp [calcGo, projHr, ih]

theorem calcGo_length (l : List HRow) : ∀ (prev : HRow) (q : ℚ),
    (calcGo prev q l).length = l.length := by
  induction l with
  | nil => intro prev q; rfl
  | cons r rest ih => intro prev q; simp [calcGo, ih]

theorem calcGo_nonneg (l : List HRow) : ∀ (prev : HRow) (q : ℚ), 0 ≤ q →
    ∀ x ∈ calcGo prev q l, 0 ≤ x.hr := by
  induction l with
  | nil => intro prev q hq x hx; simp [calcGo] at hx
  | cons r rest ih =>
      intro prev q hq x hx
      have hstep : (0 : ℚ) ≤
          (if 0 < r.ts - prev.ts ∧ 0 < r.diff - prev.diff
           then ((r.diff - prev.diff : ℤ) : ℚ) / ((r.ts - prev.ts : ℤ) : ℚ)
           else q) := by
        split
        · next hc =>
            exact div_nonneg (by exact_mod_cast hc.2.le) (by exact_mod_cast hc.1.le)
        · exact hq
      simp only [calcGo, List.mem_cons] at hx
      rcases hx with h | h
      · rw [h]; exact hstep
      · exact ih r _ hstep x h

theorem calcGo_chain (l : List HRow) : ∀ (prev : HRow) (q : ℚ),
    List.Chain' hrStep (⟨prev.height, prev.ts, prev.diff, q⟩ :: calcGo prev q l) := by
  induction l with
  | nil => intro prev q; simp [calcGo]
  | cons r rest ih =>
      intro prev q
      simp only [calcGo]
      rw [List.chain'_cons]
      exact ⟨rfl, ih r _⟩

/-- Claim C1: for every height-ascending input sequence, `calc_hashrate`
keeps each point's `(height, ts, diff)` data, assigns hashrate `0` to
the first point, assigns `dd / dt` to a later point when both deltas
are strictly positive and the immediately preceding computed hashrate
otherwise (the `hrStep` chain), and every computed value is
nonnegative. -/
theorem claim_C1_hashrate (rows : List HRow)
    (hasc : List.Chain' (fun a b => a.height < b.height) rows) :
    ((calc_hashrate rows).map projHr = rows) ∧
    (∀ r0, (calc_hashrate rows).head? = some r0 → r0.hr = 0) ∧
    List.Chain' hrStep (calc_hashrate rows) ∧
    (∀ x ∈ calc_hashrate rows, 0 ≤ x.hr) := by
  refine ⟨?_, ?_, ?_, ?_⟩
  · cases rows with
    | nil => rfl
    | cons r rest => simp [calc_hashrate, projHr, calcGo_proj]
  · cases rows with
    | nil => intro r0 h; simp [calc_hashrate] at h
    | cons r rest =>
        intro r0 h
        simp only [calc_hashrate, List.head?_cons, Option.some.injEq] at h
        rw [← h]
  · cases rows with
    | nil => simp [calc_hashrate]
    | cons r rest => exact calcGo_chain rest r 0
  · cases rows with
    | nil => intro x hx; simp [calc_hashrate] at hx
    | cons r rest =>
        intro x hx
        simp only [calc_hashrate, List.mem_cons] at hx
        rcases hx with h | h
        · rw [h]
        · exact calcGo_nonneg rest r 0 le_rfl x h

/-- Witness for C1 at the spec's concrete scenario: two consecutive
blocks with timestamps 1000, 1060 and cumulative difficulties 500, 560
yield hashrate `(560 - 500) / (1060 - 1000) = 1`. -/
theorem claim_C1_hashrate_witness :
    List.Chain' (fun a b : HRow => a.height < b.height)
      [⟨0, 1000, 500⟩, ⟨1, 1060, 560⟩] ∧
    (((calc_hashrate [⟨0, 1000, 500⟩, ⟨1, 1060, 560⟩]).map projHr =
        [⟨0, 1000, 500⟩, ⟨1, 1060, 560⟩]) ∧
      (∀ r0, (calc_hashrate [⟨0, 1000, 500⟩, ⟨1, 1060, 560⟩]).head? = some r0 →
        r0.hr = 0) ∧
      List.Chain' hrStep (calc_hashrate [⟨0, 1000, 500⟩, ⟨1, 1060, 560⟩]) ∧
      (∀ x ∈ calc_hashrate [⟨0, 1000, 500⟩, ⟨1, 1060, 560⟩], 0 ≤ x.hr)) ∧
    calc_hashrate [⟨0, 1000, 500⟩, ⟨1, 1060, 560⟩] =
      [⟨0, 1000, 500, 0⟩, ⟨1, 1060, 560, 1⟩] :=
  ⟨by simp [List.chain'_cons],
   claim_C1_hashrate [⟨0, 1000, 500⟩, ⟨1, 1060, 560⟩] (by simp [List.chain'_cons]),
   by norm_num [calc_hashrate, calcGo]⟩

/-! ## Lemmas for the incremental-extension claim -/

theorem calcGo_append (l : List HRow) : ∀ (m : List HRow) (prev : HRow) (q : ℚ),
    calcGo prev q (l ++ m) =
      calcGo prev q l ++ calcGo (goState prev q l).1 (goState prev q l).2 m := by
  induction l with
  | nil => intro m prev q; rfl
  | cons r rest ih =>
      intro m prev q
      simp only [List.cons_append, calcGo, goState, List.append_eq]
      rw [ih]

theorem goState_fst (l : List HRow) : ∀ (prev : HRow) (q : ℚ),
    (goState prev q l).1 = l.getLastD prev := by
  induction l with
  | nil => intro prev q; rfl
  | cons r rest ih =>
      intro prev q
      simp only [goState, List.getLastD_cons]
      exact ih r _

theorem calcGo_indep (m : List HRow) (prev : HRow) (q q' : ℚ)
    (h : ∀ n0, m.head? = some n0 →
      0 < n0.ts - prev.ts ∧ 0 < n0.diff - prev.diff) :
    calcGo prev q m = calcGo prev q' m := by
  cases m with
  | nil => rfl
  | cons n rest =>
      have hc := h n rfl
      simp only [calcGo]
      rw [if_pos hc, if_pos hc]

theorem calc_hashrate_drop (hist m : List HRow) (h0 : HRow) :
    (calc_hashrate ((h0 :: hist) ++ m)).drop (h0 :: hist).length =
      calcGo (hist.getLastD h0) (goState h0 0 hist).2 m := by
  show ((⟨h0.height, h0.ts, h0.diff, 0⟩ : HrRow) ::
      calcGo h0 0 (hist ++ m)).drop (hist.length + 1) = _
  rw [List.drop_succ_cons, calcGo_append, goState_fst,
    show hist.length = (calcGo h0 0 hist).length from (calcGo_length hist h0 0).symm]
  exact List.drop_left _ _

/-- Claim C2 (amended): seeding `_append_hashrate` with the stored point
at `last_height` reproduces the full-run values on the new heights
whenever the first new point has strictly positive timestamp and
difficulty deltas against that stored point; when it does not, the first
new point's hashrate is `0` (the hashrate `calc_hashrate` assigns to the
seed), not the previously persisted hashrate. -/
theorem claim_C2_amended (hist newRows : List HRow) (hne : hist ≠ []) :
    (∀ n0, newRows.head? = some n0 →
        0 < n0.ts - (hist.getLast hne).ts →
        0 < n0.diff - (hist.getLast hne).diff →
        append_hashrate newRows (some (hist.getLast hne)) =
          (calc_hashrate (hist ++ newRows)).drop hist.length) ∧
    (∀ n0, newRows.head? = some n0 →
        ¬(0 < n0.ts - (hist.getLast hne).ts ∧
          0 < n0.diff - (hist.getLast hne).diff) →
        (append_hashrate newRows (some (hist.getLast hne))).head? =
          some ⟨n0.height, n0.ts, n0.diff, 0⟩) := by
  cases hist with
  | nil => exact absurd rfl hne
  | cons h0 hrest =>
    have hgl : (h0 :: hrest).getLast hne = hrest.getLastD h0 :=
      List.getLast_eq_getLastD h0 hrest hne
    constructor
    · intro n0 hh hdt hdd
      cases newRows with
      | nil => simp at hh
      | cons n ns =>
        simp only [List.head?_cons, Option.some.injEq] at hh
        subst hh
        rw [hgl] at hdt hdd ⊢
        have lhs : append_hashrate (n :: ns) (some (hrest.getLastD h0)) =
            calcGo (hrest.getLastD h0) 0 (n :: ns) := rfl
        rw [lhs, calc_hashrate_drop]
        exact (calcGo_indep (n :: ns) (hrest.getLastD h0) 0
          (goState h0 0 hrest).2
          (fun n0' hh' => by
            simp only [List.head?_cons, Option.some.injEq] at hh'
            subst hh'
            exact ⟨hdt, hdd⟩)).symm ▸ rfl
    · intro n0 hh hnc
      cases newRows with
      | nil => simp at hh
      | cons n ns =>
        simp only [List.head?_cons, Option.some.injEq] at hh
        subst hh
        rw [hgl] at hnc ⊢
        show (calcGo (hrest.getLastD h0) 0 (n :: ns)).head? = _
        simp only [calcGo, List.head?_cons, Option.some.injEq]
        rw [if_neg hnc]

/-- Counterexample to C2 as stated: with stored history
`[(0,100,10), (1,200,20)]` (persisted hashrates `0` and `1/10`) and one
new point `(2,200,20)` with zero deltas, the seeded incremental run
assigns hashrate `0` to height 2 whereas the full run over the
concatenated sequence assigns the carried-forward `1/10`. -/
theorem claim_C2_counterexample :
    append_hashrate [⟨2, 200, 20⟩] (some ⟨1, 200, 20⟩) = [⟨2, 200, 20, 0⟩] ∧
    (calc_hashrate ([⟨0, 100, 10⟩, ⟨1, 200, 20⟩] ++ [⟨2, 200, 20⟩])).drop 2 =
      [⟨2, 200, 20, 1/10⟩] ∧
    calc_hashrate [⟨0, 100, 10⟩, ⟨1, 200, 20⟩] =
      [⟨0, 100, 10, 0⟩, ⟨1, 200, 20, 1/10⟩] ∧
    (⟨2, 200, 20, (0 : ℚ)⟩ : HrRow) ≠ ⟨2, 200, 20, 1/10⟩ :=
  ⟨by decide, by norm_num [calc_hashrate, calcGo],
   by norm_num [calc_hashrate, calcGo], by norm_num [HrRow.mk.injEq]⟩

/-- Witness for the amended C2 at a concrete input with strictly
positive deltas. -/
theorem claim_C2_amended_witness :
    (([⟨0, 100, 10⟩] : List HRow) ≠ []) ∧
    ((0 : ℤ) < 200 - 100) ∧ ((0 : ℤ) < 20 - 10) ∧
    append_hashrate [⟨1, 200, 20⟩] (some ⟨0, 100, 10⟩) =
      (calc_hashrate ([⟨0, 100, 10⟩] ++ [⟨1, 200, 20⟩])).drop 1 := by
  refine ⟨by decide, by decide, by decide, ?_⟩
  exact (claim_C2_amended [⟨0, 100, 10⟩] [⟨1, 200, 20⟩] (by decide)).1
    ⟨1, 200, 20⟩ rfl (by decide) (by decide)

/-! ## Theorems for the incremental-update frame claim -/

/-- Counterexample to C3 as stated: with the tip equal to `last_height`,
`cmd_update` takes its no-op branch and performs no tier migration: the
stored `recent` row aged far past the 24 h boundary (clock reading
`100000`, timestamp `0`) keeps bucket `recent` instead of being
re-labeled `hourly`. -/
theorem claim_C3_counterexample :
    cmd_update_blocks storeC3 5 (fun _ => none) (fun _ => none) 100000 =
      (storeC3, 0) ∧
    storeC3.blocks.map (fun b => b.bucket) = ["recent"] ∧
    RECENT_HOURS * 3600 ≤ 100000 - (0 : ℤ) :=
  ⟨by decide, by decide, by decide⟩

/-- Claim C3 (amended): when the chain tip is not ahead of the recorded
`last_height`, the incremental update performs zero fetch calls and
leaves the whole store — block rows, block stats, tiers and
`last_height` — unchanged; in particular no tier migration happens on
such a run. -/
theorem claim_C3_amended (s : Store) (tip : ℤ) (hfetch : ℤ → Option HRow)
    (sfetch : ℤ → Option StatRow) (now : ℤ) (h : tip ≤ s.lastHeight) :
    cmd_update_blocks s tip hfetch sfetch now = (s, 0) := by
  unfold cmd_update_blocks
  rw [if_pos h]

/-- Witness for the amended C3. -/
theorem claim_C3_amended_witness :
    ((5 : ℤ) ≤ storeC3.lastHeight) ∧
    cmd_update_blocks storeC3 5 (fun _ => none) (fun _ => none) 100000 =
      (storeC3, 0) :=
  ⟨by decide, claim_C3_amended storeC3 5 _ _ 100000 (by decide)⟩

/-! ## Theorems for the export claims -/

/-- Counterexample to C5 as stated: against the same unchanged store,
export runs at clock readings `0` and `1` produce different bytes (the
`updated` field differs in every artifact). -/
theorem claim_C5_counterexample :
    export_all_json emptyStore 0 ≠ export_all_json emptyStore 1 := by
  intro h
  have h2 : (export_all_json emptyStore 0).summary.updated =
      (export_all_json emptyStore 1).summary.updated := by rw [h]
  have h3 : (0 : ℤ) = 1 := h2
  exact absurd h3 (by decide)

/-- Claim C5 (amended): export reads but never writes the store, and two
export runs against an unchanged store at the same clock reading
produce identical artifacts. -/
theorem claim_C5_amended (s : Store) (t : ℤ) :
    (exportRun s t).2 = s ∧
    (exportRun ((exportRun s t).2) t).1 = (exportRun s t).1 :=
  ⟨rfl, rfl⟩

/-- Claim C10: `versions.json` is written only when the peer-snapshot
table is nonempty; on a run with that table empty it is not written
while the five other artifacts still are. -/
theorem claim_C10_versions (s : Store) (tsNow : ℤ) :
    ("versions.json" ∈ exportFiles s tsNow → s.peer_snapshots ≠ []) ∧
    (s.peer_snapshots = [] →
      "versions.json" ∉ exportFiles s tsNow ∧
      "hashrate.json" ∈ exportFiles s tsNow ∧
      "difficulty.json" ∈ exportFiles s tsNow ∧
      "transactions.json" ∈ exportFiles s tsNow ∧
      "fees.json" ∈ exportFiles s tsNow ∧
      "summary.json" ∈ exportFiles s tsNow) := by
  have key : s.peer_snapshots = [] →
      exportFiles s tsNow = ["hashrate.json", "difficulty.json",
        "transactions.json", "fees.json", "summary.json"] := by
    intro he
    have hv : (export_all_json s tsNow).versions = none := by
      show versionsFor s tsNow = none
      unfold versionsFor
      rw [he]
      rfl
    unfold exportFiles
    rw [hv]
    rfl
  constructor
  · intro hm he
    rw [key he] at hm
    exact absurd hm (by decide)
  · intro he
    rw [key he]
    exact ⟨by decide, by decide, by decide, by decide, by decide, by decide⟩

/-- Witness for C10 at the empty store. -/
theorem claim_C10_versions_witness :
    emptyStore.peer_snapshots = [] ∧
    ("versions.json" ∉ exportFiles emptyStore 0 ∧
      "hashrate.json" ∈ exportFiles emptyStore 0 ∧
      "difficulty.json" ∈ exportFiles emptyStore 0 ∧
      "transactions.json" ∈ exportFiles emptyStore 0 ∧
      "fees.json" ∈ exportFiles emptyStore 0 ∧
      "summary.json" ∈ exportFiles emptyStore 0) :=
  ⟨rfl, (claim_C10_versions emptyStore 0).2 rfl⟩

/-! ## Lemmas for the known-peer reconciliation claim -/

theorem mem_insertSorted {α : Type} (le : α → α → Bool) (x a : α) (l : List α) :
    a ∈ insertSorted le x l ↔ a = x ∨ a ∈ l := by
  induction l with
  | nil => simp [insertSorted]
  | cons b bs ih =>
      simp only [insertSorted]
      split
      · simp [List.mem_cons]
      · simp only [List.mem_cons, ih]
        tauto

theorem mem_sortByRel {α : Type} (le : α → α → Bool) (a : α) (l : List α) :
    a ∈ sortByRel le l ↔ a ∈ l := by
  induction l with
  | nil => simp [sortByRel]
  | cons b bs ih =>
      simp only [sortByRel, mem_insertSorted, List.mem_cons, ih]

theorem upsertOne_keys (tbl : List PeerRow) (e : EnrichedPeer) (ts : ℤ)
    (r : PeerRow) (hr : r ∈ tbl) :
    ∃ r' ∈ upsertOne tbl e ts,
      r'.ip = r.ip ∧ r'.network = r.network ∧ r'.first_seen = r.first_seen := by
  unfold upsertOne
  split
  · refine ⟨_, List.mem_map_of_mem _ hr, ?_, ?_, ?_⟩ <;> (split <;> rfl)
  · exact ⟨r, List.mem_append_left _ hr, rfl, rfl, rfl⟩

theorem upsertOne_origin (tbl : List PeerRow) (e : EnrichedPeer) (ts : ℤ)
    (r' : PeerRow) (h : r' ∈ upsertOne tbl e ts) :
    (∃ r ∈ tbl, r'.ip = r.ip ∧ r'.network = r.network ∧
      r'.first_seen = r.first_seen) ∨
    (r'.first_seen = ts ∧
      ∀ r ∈ tbl, ¬(r.ip = r'.ip ∧ r.network = r'.network)) := by
  unfold upsertOne at h
  split at h
  · obtain ⟨r, hr, he⟩ := List.mem_map.mp h
    left
    refine ⟨r, hr, ?_⟩
    rw [← he]
    split <;> exact ⟨rfl, rfl, rfl⟩
  · next hany =>
      rcases List.mem_append.mp h with h1 | h2
      · left; exact ⟨r', h1, rfl, rfl, rfl⟩
      · right
        simp only [List.mem_singleton] at h2
        subst h2
        refine ⟨rfl, fun r hr hkey => hany ?_⟩
        simp only [List.any_eq_true, decide_eq_true_eq]
        exact ⟨r, hr, hkey⟩

theorem foldUpsert_origin (es : List EnrichedPeer) :
    ∀ (tbl : List PeerRow) (ts : ℤ) (r' : PeerRow),
    r' ∈ es.foldl (fun t e => upsertOne t e ts) tbl →
    (∃ r ∈ tbl, r'.ip = r.ip ∧ r'.network = r.network ∧
      r'.first_seen = r.first_seen) ∨
    (r'.first_seen = ts ∧
      ∀ r ∈ tbl, ¬(r.ip = r'.ip ∧ r.network = r'.network)) := by
  induction es with
  | nil => intro tbl ts r' h; left; exact ⟨r', h, rfl, rfl, rfl⟩
  | cons e es ih =>
      intro tbl ts r' h
      rcases ih (upsertOne tbl e ts) ts r' h with
        ⟨r0, hr0, hip, hnet, hfs⟩ | ⟨hts, hfresh⟩
      · rcases upsertOne_origin tbl e ts r0 hr0 with
          ⟨r, hr, hip', hnet', hfs'⟩ | ⟨hts0, hfresh0⟩
        · left; exact ⟨r, hr, hip.trans hip', hnet.trans hnet', hfs.trans hfs'⟩
        · right
          refine ⟨hfs.trans hts0, fun r hr hkey => ?_⟩
          exact hfresh0 r hr ⟨hkey.1.trans hip, hkey.2.trans hnet⟩
      · right
        refine ⟨hts, fun r hr hkey => ?_⟩
        obtain ⟨r'', hr'', hip'', hnet'', _⟩ := upsertOne_keys tbl e ts r hr
        exact hfresh r'' hr'' ⟨hip''.trans hkey.1, hnet''.trans hkey.2⟩

theorem upsertOne_inv (tbl : List PeerRow) (e : EnrichedPeer) (ts : ℤ)
    (h : ∀ r ∈ tbl, r.first_seen ≤ r.last_seen ∧ r.first_seen ≤ ts) :
    ∀ r' ∈ upsertOne tbl e ts,
      r'.first_seen ≤ r'.last_seen ∧ r'.first_seen ≤ ts := by
  intro r' h'
  unfold upsertOne at h'
  split at h'
  · obtain ⟨r, hr, he⟩ := List.mem_map.mp h'
    rw [← he]
    split
    · exact ⟨(h r hr).2, (h r hr).2⟩
    · exact h r hr
  · rcases List.mem_append.mp h' with h1 | h2
    · exact h r' h1
    · simp only [List.mem_singleton] at h2
      subst h2
      exact ⟨le_refl ts, le_refl ts⟩

theorem foldUpsert_inv (es : List EnrichedPeer) :
    ∀ (tbl : List PeerRow) (ts : ℤ),
    (∀ r ∈ tbl, r.first_seen ≤ r.last_seen ∧ r.first_seen ≤ ts) →
    ∀ r' ∈ es.foldl (fun t e => upsertOne t e ts) tbl,
      r'.first_seen ≤ r'.last_seen ∧ r'.first_seen ≤ ts := by
  induction es with
  | nil => intro tbl ts h r' h'; exact h r' h'
  | cons e es ih =>
      intro tbl ts h r' h'
      exact ih (upsertOne tbl e ts) ts (upsertOne_inv tbl e ts h) r' h'

theorem pairwise_key_eq (tbl : List PeerRow)
    (hpk : tbl.Pairwise (fun a b => ¬(a.ip = b.ip ∧ a.network = b.network)))
    (r r0 : PeerRow) (hr : r ∈ tbl) (hr0 : r0 ∈ tbl)
    (hk : r0.ip = r.ip ∧ r0.network = r.network) : r0 = r := by
  by_contra hne
  have hsym : Symmetric
      (fun a b : PeerRow => ¬(a.ip = b.ip ∧ a.network = b.network)) :=
    fun a b hab hba => hab ⟨hba.1.symm, hba.2.symm⟩
  exact (hpk.forall hsym) hr0 hr hne hk

/-- Claim C6: across the known-peer reconciliation run, re-sighting a
peer with the same `(ip, network)` key updates its mutable fields and
`last_seen` but never `first_seen`; `first_seen ≤ last_seen` holds for
every surviving row (given the stored invariant and a clock not behind
the stored `first_seen` values); every row whose `last_seen` predates
the 30-day retention horizon is deleted, and the export selection only
contains surviving rows. -/
theorem claim_C6_known_peers (tbl : List PeerRow) (enriched : List EnrichedPeer)
    (ts : ℤ)
    (hpk : tbl.Pairwise (fun a b => ¬(a.ip = b.ip ∧ a.network = b.network)))
    (hinv : ∀ r ∈ tbl, r.first_seen ≤ r.last_seen)
    (hmono : ∀ r ∈ tbl, r.first_seen ≤ ts) :
    (∀ r ∈ tbl, ∀ r' ∈ (update_peers_db tbl enriched ts).1,
      r'.ip = r.ip → r'.network = r.network → r'.first_seen = r.first_seen) ∧
    (∀ r' ∈ (update_peers_db tbl enriched ts).1,
      r'.first_seen ≤ r'.last_seen) ∧
    (∀ r' ∈ (update_peers_db tbl enriched ts).1,
      ts - PEER_RETENTION_DAYS * 86400 ≤ r'.last_seen) ∧
    (∀ r' ∈ (update_peers_db tbl enriched ts).2,
      r' ∈ (update_peers_db tbl enriched ts).1 ∧
      ts - PEER_RETENTION_DAYS * 86400 ≤ r'.last_seen) ∧
    (∀ (e : EnrichedPeer) (r : PeerRow), r ∈ tbl →
      r.ip = e.ip → r.network = e.network →
      { r with port := e.port, user_agent := e.user_agent,
               direction := e.direction, lat := e.lat, lng := e.lng,
               country := e.country, country_code := e.country_code,
               city := e.city, last_seen := ts } ∈ upsertOne tbl e ts) := by
  have hmemP : ∀ r', r' ∈ (update_peers_db tbl enriched ts).1 ↔
      r' ∈ enriched.foldl (fun t e => upsertOne t e ts) tbl ∧
        ¬ r'.last_seen < ts - PEER_RETENTION_DAYS * 86400 := by
    intro r'
    unfold update_peers_db
    constructor
    · intro h
      have h' := List.mem_filter.mp h
      exact ⟨h'.1, of_decide_eq_true h'.2⟩
    · intro h
      exact List.mem_filter.mpr ⟨h.1, decide_eq_true h.2⟩
  refine ⟨?_, ?_, ?_, ?_, ?_⟩
  · intro r hr r' hr' hip hnet
    have hup := (hmemP r').mp hr'
    rcases foldUpsert_origin enriched tbl ts r' hup.1 with
      ⟨r0, hr0, hip0, hnet0, hfs0⟩ | ⟨_, hfresh⟩
    · have : r0 = r := pairwise_key_eq tbl hpk r r0 hr hr0
        ⟨hip0.symm.trans hip, hnet0.symm.trans hnet⟩
      rw [hfs0, this]
    · exact absurd ⟨hip.symm, hnet.symm⟩ (hfresh r hr)
  · intro r' hr'
    have hup := (hmemP r').mp hr'
    exact (foldUpsert_inv enriched tbl ts
      (fun r hr => ⟨hinv r hr, hmono r hr⟩) r' hup.1).1
  · intro r' hr'
    have hup := (hmemP r').mp hr'
    omega
  · intro r' hr'
    unfold update_peers_db at hr'
    rw [mem_sortByRel] at hr'
    have h' := List.mem_filter.mp hr'
    have h1 : r' ∈ (update_peers_db tbl enriched ts).1 := h'.1
    refine ⟨h1, ?_⟩
    have hup := (hmemP r').mp h1
    omega
  · intro e r hr hip hnet
    unfold upsertOne
    rw [if_pos ?hc]
    case hc =>
      simp only [List.any_eq_true, decide_eq_true_eq]
      exact ⟨r, hr, hip, hnet⟩
    refine List.mem_map.mpr ⟨r, hr, ?_⟩
    rw [if_pos ⟨hip, hnet⟩]

/-- Witness for C6 at a concrete one-row table with one re-sighting. -/
theorem claim_C6_known_peers_witness :
    ([wPeerRow].Pairwise
      (fun a b : PeerRow => ¬(a.ip = b.ip ∧ a.network = b.network))) ∧
    (∀ r ∈ [wPeerRow], r.first_seen ≤ r.last_seen) ∧
    (∀ r ∈ [wPeerRow], r.first_seen ≤ (100 : ℤ)) ∧
    (∀ r' ∈ (update_peers_db [wPeerRow] [wEnriched] 100).1,
      r'.first_seen ≤ r'.last_seen) :=
  ⟨List.pairwise_singleton _ _,
   by intro r hr; simp only [List.mem_singleton] at hr; subst hr; decide,
   by intro r hr; simp only [List.mem_singleton] at hr; subst hr; decide,
   (claim_C6_known_peers [wPeerRow] [wEnriched] 100
      (List.pairwise_singleton _ _)
      (by intro r hr; simp only [List.mem_singleton] at hr; subst hr; decide)
      (by intro r hr; simp only [List.mem_singleton] at hr; subst hr; decide)).2.1⟩

/-! ## Theorems for the peer-discovery filter claim -/

/-- Counterexample to C7 as stated: a healthy peer at the RFC 1918
private address `172.16.0.1` passes the primary-path filter and appears
in the discovery output. -/
theorem claim_C7_counterexample :
    (fetchPeersOwnerPath [badRawPeer] "mainnet").map (fun q => q.ip) =
      ["172.16.0.1"] ∧
    specPrivateOrLocal "172.16.0.1" = true :=
  ⟨by decide, by decide⟩

/-- Claim C7 (amended): the primary-path output contains only peers
whose source record was not flagged `Banned` and whose extracted ip is
nonempty and starts with none of `"127."`, `"::1"`, `"10."`,
`"192.168."`; the fallback path checks only the `"127."` and `"::1"`
prefixes (and drops no banned flag).  Addresses in `172.16.0.0/12` and
link-local ranges pass both filters. -/
theorem claim_C7_amended :
    (∀ (raw : List RawPeer) (net : String) (q : OutPeer),
      q ∈ fetchPeersOwnerPath raw net →
      q.ip ≠ "" ∧ strStartsWith q.ip "127." = false ∧
      strStartsWith q.ip "::1" = false ∧ strStartsWith q.ip "10." = false ∧
      strStartsWith q.ip "192.168." = false ∧
      ∃ p ∈ raw, containsSub "Banned" p.flags = false ∧ q.ip = extractIp p.addr) ∧
    (∀ (raw : List RawPeer) (net : String) (q : OutPeer),
      q ∈ fetchPeersFallback raw net →
      q.ip ≠ "" ∧ strStartsWith q.ip "127." = false ∧
      strStartsWith q.ip "::1" = false) := by
  constructor
  · intro raw net q hq
    obtain ⟨p, hp, he⟩ := List.mem_filterMap.mp hq
    unfold ownerEntry at he
    split at he
    · exact absurd he (by simp)
    · next hban =>
        dsimp only at he
        split at he
        · next hcond =>
            have hqe := Option.some.inj he
            subst hqe
            refine ⟨hcond.1, hcond.2.1, hcond.2.2.1, hcond.2.2.2.1,
              hcond.2.2.2.2, p, hp, ?_, rfl⟩
            revert hban
            cases containsSub "Banned" p.flags <;> simp
        · exact absurd he (by simp)
  · intro raw net q hq
    obtain ⟨p, hp, he⟩ := List.mem_filterMap.mp hq
    unfold connectedEntry at he
    dsimp only at he
    split at he
    · next hcond =>
        have hqe := Option.some.inj he
        subst hqe
        exact ⟨hcond.1, hcond.2.1, hcond.2.2⟩
    · exact absurd he (by simp)

/-- Witness for the amended C7: a healthy public peer passes the
primary-path filter and satisfies the guaranteed properties. -/
theorem claim_C7_amended_witness :
    ((⟨"1.2.3.4", "3414", "MW/Grin", "Outbound", "mainnet"⟩ : OutPeer) ∈
      fetchPeersOwnerPath [goodRawPeer] "mainnet") ∧
    ((⟨"1.2.3.4", "3414", "MW/Grin", "Outbound", "mainnet"⟩ : OutPeer).ip ≠ "" ∧
      strStartsWith "1.2.3.4" "127." = false ∧
      strStartsWith "1.2.3.4" "::1" = false ∧
      strStartsWith "1.2.3.4" "10." = false ∧
      strStartsWith "1.2.3.4" "192.168." = false ∧
      ∃ p ∈ [goodRawPeer], containsSub "Banned" p.flags = false ∧
        (⟨"1.2.3.4", "3414", "MW/Grin", "Outbound", "mainnet"⟩ : OutPeer).ip =
          extractIp p.addr) :=
  ⟨by decide,
   claim_C7_amended.1 [goodRawPeer] "mainnet"
     ⟨"1.2.3.4", "3414", "MW/Grin", "Outbound", "mainnet"⟩ (by decide)⟩

/-! ## Theorems for the RPC retry claim -/

/-- Claim C8: `_rpc` retries transient transport failures up to the
fixed bound of 3 attempts with linearly increasing backoff sleeps
(1 s, 2 s) and then surfaces the failure, while an `Err`-tagged payload
is surfaced immediately as a domain error after a single call with no
retry and no sleep. -/
theorem claim_C8_rpc :
    (∀ oracle : ℕ → Attempt,
      (∀ i, i < 3 → oracle i = Attempt.transportFail) →
      rpc oracle = (RpcResult.transportErr, 3, [1, 2])) ∧
    (∀ (oracle : ℕ → Attempt) (e : String),
      oracle 0 = Attempt.response (RpcResp.errTagged e) →
      rpc oracle = (RpcResult.domainErr e, 1, [])) := by
  constructor
  · intro oracle h
    have h0 := h 0 (by omega)
    have h1 := h 1 (by omega)
    have h2 := h 2 (by omega)
    simp [rpc, rpcLoop, h0, h1, h2]
  · intro oracle e h
    simp [rpc, rpcLoop, h]

/-- Witness for C8: the always-failing transport oracle. -/
theorem claim_C8_rpc_witness :
    (∀ i, i < 3 → (fun _ : ℕ => Attempt.transportFail) i = Attempt.transportFail) ∧
    rpc (fun _ => Attempt.transportFail) = (RpcResult.transportErr, 3, [1, 2]) :=
  ⟨fun _ _ => rfl, claim_C8_rpc.1 (fun _ => Attempt.transportFail) (fun _ _ => rfl)⟩

/-- Claim C4: `assign_bucket` is a pure function of `age = now - ts`
returning `recent` exactly when `age < 24h`, `hourly` exactly when
`24h ≤ age < 30d`, and `daily` exactly when `age ≥ 30d`. -/
theorem claim_C4_bucket (now ts : ℤ) :
    (assign_bucket now ts = "recent" ↔ now - ts < 24 * 3600) ∧
    (assign_bucket now ts = "hourly" ↔
      (24 * 3600 ≤ now - ts ∧ now - ts < 30 * 86400)) ∧
    (assign_bucket now ts = "daily" ↔ 30 * 86400 ≤ now - ts) ∧
    (∀ now' ts', now - ts = now' - ts' →
      assign_bucket now ts = assign_bucket now' ts') := by
  have hb : assign_bucket now ts =
      (if now - ts < 24 * 3600 then "recent"
       else if now - ts < 30 * 86400 then "hourly" else "daily") := rfl
  refine ⟨?_, ?_, ?_, fun now' ts' h => by unfold assign_bucket; rw [h]⟩
  · rw [hb]; split_ifs with h1 h2
    · exact iff_of_true rfl h1
    · exact iff_of_false (by decide) (by omega)
    · exact iff_of_false (by decide) (by omega)
  · rw [hb]; split_ifs with h1 h2
    · exact iff_of_false (by decide) (by omega)
    · exact iff_of_true rfl ⟨by omega, h2⟩
    · exact iff_of_false (by decide) (by omega)
  · rw [hb]; split_ifs with h1 h2
    · exact iff_of_false (by decide) (by omega)
    · exact iff_of_false (by decide) (by omega)
    · exact iff_of_true rfl (by omega)

/-- Witness for C4: an age of 50 seconds is shared by two different
`(now, ts)` pairs and yields the same bucket. -/
theorem claim_C4_bucket_witness :
    ((100 : ℤ) - 50 = 60 - 10) ∧ assign_bucket 100 50 = assign_bucket 60 10 :=
  ⟨by decide, (claim_C4_bucket 100 50).2.2.2 60 10 (by decide)⟩

/-- Claim C9: `parse_ts` is total; whenever the `strptime` parse of the
input fails, it returns the current wall-clock time, which
`assign_bucket` then necessarily classifies as `recent` (age zero). -/
theorem claim_C9_parse_ts (s : String) (now : ℤ)
    (h : strptimeIso (beforeDot s.data) = none) :
    parse_ts s now = now ∧ assign_bucket now (parse_ts s now) = "recent" := by
  have hp : parse_ts s now = now := by unfold parse_ts; rw [h]
  refine ⟨hp, ?_⟩
  rw [hp]
  unfold assign_bucket RECENT_HOURS
  rw [if_pos (by omega)]

/-- Witness for C9: a malformed timestamp string parses to `none` and is
recorded as `now` and bucketed `recent`. -/
theorem claim_C9_parse_ts_witness :
    strptimeIso (beforeDot "not-a-date".data) = none ∧
    (parse_ts "not-a-date" 42 = 42 ∧
      assign_bucket 42 (parse_ts "not-a-date" 42) = "recent") :=
  ⟨by decide, claim_C9_parse_ts "not-a-date" 42 (by decide)⟩

end GrinCollector
